import Mathlib

/-!
Verification development for `tools/generate_ai_previews.py`.

The script is embedded shallowly: pure computations become Lean functions on
`Nat`-byte lists and `String`s; every interaction with the outside world
(stat, open/read, subprocess, mkdir, file write) is an explicit
`Except String _` input, `.error e` standing for a raised exception with
message `e`.  Python strings are modelled as Lean `String`s and the Python
string operations used by the script are re-implemented character-wise
(`py*` helpers below).
-/

set_option maxRecDepth 100000

deriving instance DecidableEq for Except

namespace GPSPreviews

/-- Tunables of the script (module-level constants, overridable via env). -/
structure Config where
  MAX_PREVIEW_BYTES : Nat := 4096
  BIG_FILE_THRESHOLD : Nat := 1048576
  PREVIEW_HEX_BYTES : Nat := 512
  CSV_ROW_LIMIT : Nat := 100
deriving DecidableEq

/-- The default configuration (no environment overrides). -/
def defaultConfig : Config := {}

/-! ## Python string helpers (character-wise models of `str` methods) -/

/-- Model of `str.startswith` (on code points). -/
def pyStartsWith (s pre : String) : Bool := pre.toList.isPrefixOf s.toList

/-- Model of `str.endswith` (on code points). -/
def pyEndsWith (s suf : String) : Bool := suf.toList.isSuffixOf s.toList

/-- Worker for substring search: does `needle` occur in the haystack. -/
def hasInfixAux (needle : List Char) : List Char → Bool
  | [] => needle.isEmpty
  | c :: rest => needle.isPrefixOf (c :: rest) || hasInfixAux needle rest

/-- Model of `sub in s` substring membership. -/
def pyContains (s sub : String) : Bool := hasInfixAux sub.toList s.toList

/-- Model of `str.lower` (character-wise). -/
def pyLower (s : String) : String := String.mk (s.toList.map Char.toLower)

/-- Whitespace test used by `str.strip` / `str.split()`. -/
def pyIsWs (c : Char) : Bool := c.isWhitespace

/-- Model of `str.strip()` with no arguments. -/
def pyStrip (s : String) : String :=
  String.mk (((s.toList.dropWhile pyIsWs).reverse.dropWhile pyIsWs).reverse)

/-- Helper for `str.split()`: cut a character list on whitespace runs. -/
def pySplitWsAux : List Char → List Char → List String
  | [], acc => if acc.isEmpty then [] else [String.mk acc.reverse]
  | c :: rest, acc =>
    if pyIsWs c then
      if acc.isEmpty then pySplitWsAux rest []
      else String.mk acc.reverse :: pySplitWsAux rest []
    else pySplitWsAux rest (c :: acc)

/-- Model of `str.split()` with no arguments (split on whitespace runs,
no empty fields). -/
def pySplitWs (s : String) : List String := pySplitWsAux s.toList []

/-- Helper for `str.split(sep)` with a one-character separator. -/
def pySplitOnCharAux (sep : Char) : List Char → List Char → List String
  | [], acc => [String.mk acc.reverse]
  | c :: rest, acc =>
    if c = sep then String.mk acc.reverse :: pySplitOnCharAux sep rest []
    else pySplitOnCharAux sep rest (c :: acc)

/-- Model of `str.split(sep)` for a one-character separator (keeps empty
fields, as Python does). -/
def pySplitOnChar (s : String) (sep : Char) : List String := pySplitOnCharAux sep s.toList []

/-! ## UTF-8 decoding with replacement (`bytes.decode('utf-8', errors='replace')`)

Bytes are `Nat`s below 256; the decoder produces the list of Unicode code
points, replacing each maximal invalid subpart by U+FFFD, as CPython does. -/

/-- Is `b` a UTF-8 continuation byte. -/
def contB (b : Nat) : Bool := 0x80 ≤ b && b ≤ 0xBF

/-- Constraint on the first continuation byte, which depends on the lead
byte (excludes overlong encodings and surrogates, as CPython does). -/
def cont1OK (b c : Nat) : Bool :=
  if b = 0xE0 then 0xA0 ≤ c && c ≤ 0xBF
  else if b = 0xED then 0x80 ≤ c && c ≤ 0x9F
  else if b = 0xF0 then 0x90 ≤ c && c ≤ 0xBF
  else if b = 0xF4 then 0x80 ≤ c && c ≤ 0x8F
  else contB c

/-- Fuel-driven worker for UTF-8 decoding with `errors='replace'`: code
points out, U+FFFD for each maximal invalid subpart.  Each step consumes
at least one byte, so fuel = input length suffices; the fuel only makes
the recursion structural. -/
def decodeUtf8ReplaceF : Nat → List Nat → List Nat
  | _, [] => []
  | 0, _ :: _ => []
  | fuel + 1, b :: rest =>
    if b < 0x80 then b :: decodeUtf8ReplaceF fuel rest
    else if 0xC2 ≤ b && b ≤ 0xDF then
      match rest with
      | [] => [0xFFFD]
      | c :: rest2 =>
        if contB c then ((b - 0xC0) * 64 + (c - 0x80)) :: decodeUtf8ReplaceF fuel rest2
        else 0xFFFD :: decodeUtf8ReplaceF fuel (c :: rest2)
    else if 0xE0 ≤ b && b ≤ 0xEF then
      match rest with
      | [] => [0xFFFD]
      | c :: rest2 =>
        if cont1OK b c then
          match rest2 with
          | [] => [0xFFFD]
          | d :: rest3 =>
            if contB d then
              ((b - 0xE0) * 4096 + (c - 0x80) * 64 + (d - 0x80)) :: decodeUtf8ReplaceF fuel rest3
            else 0xFFFD :: decodeUtf8ReplaceF fuel (d :: rest3)
        else 0xFFFD :: decodeUtf8ReplaceF fuel (c :: rest2)
    else if 0xF0 ≤ b && b ≤ 0xF4 then
      match rest with
      | [] => [0xFFFD]
      | c :: rest2 =>
        if cont1OK b c then
          match rest2 with
          | [] => [0xFFFD]
          | d :: rest3 =>
            if contB d then
              match rest3 with
              | [] => [0xFFFD]
              | e :: rest4 =>
                if contB e then
                  ((b - 0xF0) * 262144 + (c - 0x80) * 4096 + (d - 0x80) * 64 + (e - 0x80)) ::
                    decodeUtf8ReplaceF fuel rest4
                else 0xFFFD :: decodeUtf8ReplaceF fuel (e :: rest4)
            else 0xFFFD :: decodeUtf8ReplaceF fuel (d :: rest3)
        else 0xFFFD :: decodeUtf8ReplaceF fuel (c :: rest2)
    else 0xFFFD :: decodeUtf8ReplaceF fuel rest

/-- UTF-8 decoding with `errors='replace'` (CPython semantics). -/
def decodeUtf8Replace (bs : List Nat) : List Nat := decodeUtf8ReplaceF bs.length bs

/-- The line boundaries recognised by `str.splitlines`. -/
def isNewlineCp (c : Nat) : Bool :=
  c = 0x0A || c = 0x0B || c = 0x0C || c = 0x0D || c = 0x1C || c = 0x1D || c = 0x1E ||
    c = 0x85 || c = 0x2028 || c = 0x2029

/-- Worker for `str.splitlines(True)`; `acc` is the current line reversed.
A CR immediately followed by LF ends a line with both characters. -/
def splitlinesAux : List Nat → List Nat → List (List Nat)
  | [], acc => if acc.isEmpty then [] else [acc.reverse]
  | 0x0D :: 0x0A :: rest, acc => (acc.reverse ++ [0x0D, 0x0A]) :: splitlinesAux rest []
  | c :: rest, acc =>
    if isNewlineCp c then (acc.reverse ++ [c]) :: splitlinesAux rest []
    else splitlinesAux rest (c :: acc)

/-- Model of `str.splitlines(True)` on a list of code points. -/
def pySplitlinesKeepends (cs : List Nat) : List (List Nat) := splitlinesAux cs []

/-! ## Hex encoding (`bytes.hex` and `sha1.hexdigest` both use it) -/

/-- One lowercase hex digit. -/
def hexDigit (n : Nat) : Char :=
  if n < 10 then Char.ofNat (48 + n) else Char.ofNat (87 + n)

/-- Model of `bytes.hex()`: two lowercase hex characters per byte. -/
def bytesToHex (bs : List Nat) : String :=
  String.mk (bs.flatMap fun b => [hexDigit (b / 16 % 16), hexDigit (b % 16)])

/-! ## `preview_text` -/

/-- The dictionary returned by `preview_text`: any subset of the four keys
can be present, `none` meaning the key is absent. -/
structure PreviewOut where
  size : Option Nat := none
  preview_text : Option (List (List Nat)) := none
  preview_hex : Option String := none
  preview_error : Option String := none
deriving DecidableEq

/-- Embedding of `preview_text(path)`.  `statRes` is the outcome of
`path.stat().st_size`, `readRes` the outcome of opening the file and
reading it (the full byte content on success; the function itself takes the
`MAX_PREVIEW_BYTES`-byte prefix, as `fh.read(MAX_PREVIEW_BYTES)` does).
The inner `decode('utf-8', errors='replace')` never raises, so the
`latin1` fallback in the source is dead code and is not modelled. -/
def preview_text (cfg : Config) (statRes : Except String Nat)
    (readRes : Except String (List Nat)) : PreviewOut :=
  match statRes with
  | .error e => { preview_error := some e }
  | .ok size =>
    match readRes with
    | .error e => { size := some size, preview_error := some e }
    | .ok content =>
      let chunk := content.take cfg.MAX_PREVIEW_BYTES
      let zeros := chunk.count 0
      let binary := zeros > 0 || (chunk.take 200).any (fun b => b > 127)
      if binary then
        { size := some size,
          preview_hex := some (bytesToHex (chunk.take cfg.PREVIEW_HEX_BYTES)) }
      else
        { size := some size,
          preview_text :=
            some ((pySplitlinesKeepends (decodeUtf8Replace chunk)).take 100) }

example : preview_text defaultConfig (.ok 3) (.ok [97, 10, 98]) =
    { size := some 3, preview_text := some [[97, 10], [98]] } := by decide

example : preview_text defaultConfig (.ok 2) (.ok [0, 65]) =
    { size := some 2, preview_hex := some "0041" } := by decide

example : preview_text defaultConfig (.error "botched stat") (.ok [1]) =
    { preview_error := some "botched stat" } := by decide

/-! ## Subprocess results and the small helpers built on them -/

/-- Result of a completed `subprocess.run(..., shell=True, capture_output=True,
text=True)` call. -/
structure Proc where
  returncode : Int
  stdout : String
  stderr : String
deriving DecidableEq

/-- Embedding of `mime_type(path)`.  `runRes` is the outcome of
`run("file --brief --mime-type <path>")`; `.error` stands for an exception
raised while spawning, which the function swallows. -/
def mime_type (runRes : Except String Proc) : String :=
  match runRes with
  | .error _ => "unknown/unknown"
  | .ok p => if p.returncode = 0 then pyStrip p.stdout else "unknown/unknown"

/-- Embedding of `is_lfs_pointer(path)`: `headRes` is the outcome of
opening the file in lenient text mode and reading the first 4096
characters; any failure is treated as "not a pointer". -/
def is_lfs_pointer (headRes : Except String String) : Bool :=
  match headRes with
  | .error _ => false
  | .ok head => pyContains head "version https://git-lfs.github.com/spec"

/-- Model of `Path(f).name`: the last `/`-separated component. -/
def pathName (f : String) : String := (f.splitOn "/").getLastD f

/-! ## Converters

Each converter returns a Python dict; the possible dict shapes are the
constructors below.  None of the dicts is ever empty, which matters for
the truthiness test `if converted_info:` in `main`. -/

/-- The dict shapes returned by the three converters. -/
inductive ConvInfo where
  | err (kind msg : String)
  | sqliteOk (tables exported : List String)
  | mbtilesOk (metadataPath : String)
  | geojsonOk (geojsonPath : String)
deriving DecidableEq

/-- Number of keys of the dict a `ConvInfo` stands for (`err` carries
`error` and `msg`; `sqliteOk` carries `tables` and `exported`; the other
two carry a single key). -/
def ConvInfo.keyCount : ConvInfo → Nat
  | .err _ _ => 2
  | .sqliteOk _ _ => 2
  | .mbtilesOk _ => 1
  | .geojsonOk _ => 1

/-- Model of the table-name sanitizer `t.replace('\x22','').replace(\x27,'')`:
drop double and single quotes. -/
def sqliteSafeT (t : String) : String :=
  String.mk (t.toList.filter fun c => c ≠ Char.ofNat 34 && c ≠ Char.ofNat 39)

/-- Embedding of `convert_sqlite(path, outdir)`.  `nm` is `path.name`,
`outdirStr` the string form of `outdir`, `tablesRun` the outcome of
`run("sqlite3 <path> .tables")` (`.error` = exception, caught by the
function), and `exportRC` gives the returncode of the per-table CSV export
command as a function of the sanitized table name (the source builds the
command from that name; `run` with `shell=True` does not raise there). -/
def convert_sqlite (nm outdirStr : String) (tablesRun : Except String Proc)
    (exportRC : String → Int) : ConvInfo :=
  match tablesRun with
  | .error e => .err "exception" e
  | .ok p =>
    if p.returncode ≠ 0 then .err "sqlite-error" (pyStrip p.stderr)
    else
      let tables := (pySplitWs (pyStrip p.stdout)).filter (fun t => t ≠ "")
      let exported := (tables.filter fun t => exportRC (sqliteSafeT t) = 0).map
        (fun t => outdirStr ++ "/" ++ nm ++ "__" ++ sqliteSafeT t ++ ".csv")
      .sqliteOk tables exported

/-- Embedding of `extract_mbtiles_metadata(path, outdir)`.  `metaRun` is
the metadata query outcome, `writeRes` the outcome of writing the
metadata text file (both failure modes are caught as `exception`). -/
def extract_mbtiles_metadata (nm outdirStr : String) (metaRun : Except String Proc)
    (writeRes : Except String Unit) : ConvInfo :=
  match metaRun with
  | .error e => .err "exception" e
  | .ok p =>
    if p.returncode ≠ 0 then .err "mbtiles-sqlite-error" (pyStrip p.stderr)
    else
      match writeRes with
      | .error e => .err "exception" e
      | .ok _ => .mbtilesOk (outdirStr ++ "/" ++ nm ++ ".metadata.txt")

/-- Embedding of `convert_gpx_kml(path, outdir)`: `ogrRun` is the outcome
of the `ogr2ogr` invocation (`.error` = exception, caught). -/
def convert_gpx_kml (nm outdirStr : String) (ogrRun : Except String Proc) : ConvInfo :=
  match ogrRun with
  | .error e => .err "exception" e
  | .ok r =>
    if r.returncode = 0 then .geojsonOk (outdirStr ++ "/" ++ nm ++ ".geojson")
    else .err "ogr2ogr-failed" (pyStrip r.stderr)

/-! ## SHA-1 (`hashlib.sha1`, fed in 8192-byte chunks by `file_sha1`)

The hash object is modelled with its real streaming structure: five
32-bit state words, a buffer of fewer than 64 pending bytes, and the
total byte count.  All arithmetic is `Nat` reduced mod 2^32. -/

/-- Reduce mod 2^32. -/
def w32 (n : Nat) : Nat := n % 4294967296

/-- Rotate a 32-bit word left by `k` bits. -/
def rotl (k n : Nat) : Nat :=
  (n % 4294967296) * 2 ^ k % 4294967296 + n % 4294967296 / 2 ^ (32 - k)

/-- The five 32-bit state words. -/
structure H5 where
  a : Nat
  b : Nat
  c : Nat
  d : Nat
  e : Nat
deriving DecidableEq

/-- SHA-1 initialization vector. -/
def sha1IV : H5 := ⟨0x67452301, 0xEFCDAB89, 0x98BADCFE, 0x10325476, 0xC3D2E1F0⟩

/-- Big-endian 4-byte groups to 32-bit words. -/
def toWords : List Nat → List Nat
  | b0 :: b1 :: b2 :: b3 :: rest => (((b0 * 256 + b1) * 256 + b2) * 256 + b3) :: toWords rest
  | _ => []

/-- Extend a 16-word schedule by `n` more words
(`w[t] = rotl1 (w[t-3] xor w[t-8] xor w[t-14] xor w[t-16])`). -/
def extendW : Nat → List Nat → List Nat
  | 0, w => w
  | n + 1, w =>
    let l := w.length
    extendW n (w ++ [rotl 1 (w.getD (l - 3) 0 ^^^ w.getD (l - 8) 0 ^^^
      w.getD (l - 14) 0 ^^^ w.getD (l - 16) 0)])

/-- The round function `f_t`. -/
def sha1f (t b c d : Nat) : Nat :=
  if t < 20 then b &&& c ||| ((b ^^^ 0xFFFFFFFF) &&& d)
  else if t < 40 then b ^^^ c ^^^ d
  else if t < 60 then b &&& c ||| b &&& d ||| c &&& d
  else b ^^^ c ^^^ d

/-- The round constant `K_t`. -/
def sha1K (t : Nat) : Nat :=
  if t < 20 then 0x5A827999
  else if t < 40 then 0x6ED9EBA1
  else if t < 60 then 0x8F1BBCDC
  else 0xCA62C1D6

/-- One SHA-1 round, on (round index, schedule word). -/
def roundStep (st : H5) (tw : Nat × Nat) : H5 :=
  let tmp := w32 (rotl 5 st.a + sha1f tw.1 st.b st.c st.d + st.e + sha1K tw.1 + tw.2)
  ⟨tmp, st.a, rotl 30 st.b, st.c, st.d⟩

/-- Compress one 64-byte block into the state. -/
def compress (st : H5) (block : List Nat) : H5 :=
  let w := extendW 64 (toWords block)
  let r := (w.enum.map fun p => (p.1, p.2)).foldl roundStep st
  ⟨w32 (st.a + r.a), w32 (st.b + r.b), w32 (st.c + r.c), w32 (st.d + r.d), w32 (st.e + r.e)⟩

/-- Fuel-driven block consumer: process complete 64-byte blocks, return
the new state and the remainder (< 64 bytes).  Fuel = input length
suffices; it only makes the recursion structural. -/
def processBlocksF : Nat → H5 → List Nat → H5 × List Nat
  | 0, st, l => (st, l)
  | fuel + 1, st, l =>
    if 64 ≤ l.length then processBlocksF fuel (compress st (l.take 64)) (l.drop 64)
    else (st, l)

/-- Process all complete 64-byte blocks of `l` into the state. -/
def processBlocks (st : H5) (l : List Nat) : H5 × List Nat := processBlocksF l.length st l

/-- A streaming SHA-1 hash object (the state of `hashlib.sha1()`). -/
structure Sha1Ctx where
  h : H5
  buf : List Nat
  msglen : Nat
deriving DecidableEq

/-- `hashlib.sha1()`. -/
def sha1init : Sha1Ctx := ⟨sha1IV, [], 0⟩

/-- `h.update(data)`: absorb bytes, compressing complete blocks. -/
def sha1update (ctx : Sha1Ctx) (data : List Nat) : Sha1Ctx :=
  let pr := processBlocks ctx.h (ctx.buf ++ data)
  ⟨pr.1, pr.2, ctx.msglen + data.length⟩

/-- Big-endian 8-byte encoding of the bit length. -/
def lenBytes (bits : Nat) : List Nat :=
  [bits / 2 ^ 56 % 256, bits / 2 ^ 48 % 256, bits / 2 ^ 40 % 256, bits / 2 ^ 32 % 256,
   bits / 2 ^ 24 % 256, bits / 2 ^ 16 % 256, bits / 2 ^ 8 % 256, bits % 256]

/-- Big-endian 4-byte encoding of a 32-bit word. -/
def wordBytes (w : Nat) : List Nat :=
  [w / 2 ^ 24 % 256, w / 2 ^ 16 % 256, w / 2 ^ 8 % 256, w % 256]

/-- `h.hexdigest()`: pad (0x80, zeros to 56 mod 64, 8-byte bit length),
compress the final block(s), hex-encode the state big-endian. -/
def sha1hexdigest (ctx : Sha1Ctx) : String :=
  let tail := ctx.buf ++ 0x80 :: List.replicate ((119 - ctx.msglen % 64) % 64) 0 ++
    lenBytes (8 * ctx.msglen)
  let st := (processBlocks ctx.h tail).1
  bytesToHex (wordBytes st.a ++ wordBytes st.b ++ wordBytes st.c ++ wordBytes st.d ++
    wordBytes st.e)

/-- Fuel-driven model of `iter(lambda: fh.read(8192), b'')`: the successive
8192-byte chunks of the file content. -/
def readChunksF : Nat → List Nat → List (List Nat)
  | _, [] => []
  | 0, _ :: _ => []
  | fuel + 1, l => l.take 8192 :: readChunksF fuel (l.drop 8192)

/-- The 8192-byte chunks of the content. -/
def readChunks (l : List Nat) : List (List Nat) := readChunksF l.length l

/-- Embedding of `file_sha1(path)` on the file's byte content: stream the
8192-byte chunks through the hash and return the hex digest. -/
def file_sha1 (content : List Nat) : String :=
  sha1hexdigest (List.foldl sha1update sha1init (readChunks content))

/-- Reference semantics: the whole byte sequence hashed in one update. -/
def sha1_once (content : List Nat) : String :=
  sha1hexdigest (sha1update sha1init content)

/-- Known test vector: SHA-1 of the empty message. -/
theorem sha1_vector_empty : sha1_once [] = "da39a3ee5e6b4b0d3255bfef95601890afd80709" := by
  decide

/-- Known test vector: SHA-1 of "abc". -/
theorem sha1_vector_abc : sha1_once [97, 98, 99] = "a9993e364706816aba3e25717850c26c9cd0d89d" := by
  decide

/-! ## File enumeration (`git_tracked_files`)

The working directory is a finite tree; `os.walk('.')` yields, top-down,
each directory's path (rooted at `"."`, components joined with `/`)
together with its file names. -/

mutual

/-- A directory: its file names and its named subdirectories. -/
inductive Dir where
  | mk (files : List String) (subdirs : DirList)

/-- A list of named subdirectories. -/
inductive DirList where
  | nil
  | cons (name : String) (d : Dir) (rest : DirList)

end

mutual

/-- Model of `os.walk(root)`: yield the root with its file names, then
recurse into the subdirectories in order (top-down traversal). -/
def walkFrom (root : String) : Dir → List (String × List String)
  | .mk fs subs => (root, fs) :: walkSubs root subs

/-- Walk each named subdirectory of `root` in order. -/
def walkSubs (root : String) : DirList → List (String × List String)
  | .nil => []
  | .cons n d rest => walkFrom (root ++ "/" ++ n) d ++ walkSubs root rest

end

/-- Model of the `path[2:]` strip of a leading `./`. -/
def stripDotSlash (s : String) : String :=
  if pyStartsWith s "./" then String.mk (s.toList.drop 2) else s

/-- The inner loop of the fallback: emit every file of one walked
directory, joined to its root and stripped of a leading `./`. -/
def walkEmit (rf : String × List String) : List String :=
  rf.2.map fun fn => stripDotSlash (rf.1 ++ "/" ++ fn)

/-- One walked directory's contribution in the code's fallback: nothing
when the root string-starts with `./.git` or `./ai-previews`, its files
otherwise. -/
def codeKeep (rf : String × List String) : List String :=
  if pyStartsWith rf.1 "./.git" || pyStartsWith rf.1 "./ai-previews" then [] else walkEmit rf

/-- Embedding of `git_tracked_files()`.  `gitLs` is the completed
`run('git ls-files -z')` (with `shell=True` and `check=False` it returns a
`Proc` rather than raising), `cwd` the working tree.  On a zero return
code with non-empty stdout, the NUL-separated fields are returned;
otherwise the fallback walk runs, skipping every walk root that starts
with `./.git` or `./ai-previews` as a string prefix. -/
def git_tracked_files (gitLs : Proc) (cwd : Dir) : List String :=
  if gitLs.returncode = 0 ∧ gitLs.stdout ≠ "" then
    (pySplitOnChar gitLs.stdout (Char.ofNat 0)).filter fun f => f ≠ ""
  else
    (walkFrom "." cwd).flatMap codeKeep

/-- Drop the top-level subdirectories named `.git` and `ai-previews`
(used by the spec-worded walk below). -/
def dirListFilterTop : DirList → DirList
  | .nil => .nil
  | .cons n d rest =>
    if n = ".git" ∨ n = "ai-previews" then dirListFilterTop rest
    else .cons n d (dirListFilterTop rest)

/-- The fallback walk as the spec words it: a recursive walk that excludes
exactly the version-control metadata directory (`.git`) and the tool's
own output directory (`ai-previews`), i.e. prunes exactly those two
top-level subtrees and keeps everything else.  This follows the spec's
words; it is compared with the code's `git_tracked_files` above. -/
def specExactExclusionWalk : Dir → List String
  | .mk fs subs => (walkFrom "." (.mk fs (dirListFilterTop subs))).flatMap walkEmit

/-- A working tree with a `.github` directory holding one workflow file
(the script itself targets GitHub Actions, so this layout is the normal
one for the repository). -/
def ghTree : Dir := .mk [] (.cons ".github" (.mk ["ci.yml"] .nil) .nil)

/-- A failed `git ls-files -z` invocation. -/
def gitFailProc : Proc := ⟨128, "", "fatal: not a git repository"⟩

example : walkFrom "." ghTree = [(".", []), ("./.github", ["ci.yml"])] := by decide

example : git_tracked_files gitFailProc ghTree = [] := by decide

example : specExactExclusionWalk ghTree = [".github/ci.yml"] := by decide

example : git_tracked_files ⟨0, "a\x00b/c.gpx\x00", ""⟩ ghTree = ["a", "b/c.gpx"] := by decide

/-! ## Per-file records and the main loop -/

/-- One file record (`entry` in `main`).  `none` = key absent. -/
structure Entry where
  path : String
  size : Nat
  sha1 : String
  mime : String
  is_lfs_pointer : Bool
  scanned_at : String
  preview_text : Option (List (List Nat)) := none
  preview_hex : Option String := none
  preview_error : Option String := none
  converted : Option ConvInfo := none
deriving DecidableEq

/-- Model of `entry.update(pv)`: each key present in `pv` overwrites the
corresponding key of `entry` (note this can overwrite `size`). -/
def applyPreview (e : Entry) (pv : PreviewOut) : Entry :=
  { e with
    size := match pv.size with | some v => v | none => e.size
    preview_text := match pv.preview_text with | some v => some v | none => e.preview_text
    preview_hex := match pv.preview_hex with | some v => some v | none => e.preview_hex
    preview_error := match pv.preview_error with | some v => some v | none => e.preview_error }

/-- Model of the large-file truncation step in `main`:
`if entry.get('size', 0) > BIG_FILE_THRESHOLD and 'preview_text' in entry:
entry['preview_text'] = entry['preview_text'][:50]`. -/
def truncateBig (cfg : Config) (e : Entry) : Entry :=
  if e.size > cfg.BIG_FILE_THRESHOLD ∧ e.preview_text.isSome then
    { e with preview_text := e.preview_text.map fun ls => ls.take 50 }
  else e

/-- All outside-world outcomes `main` consumes for one enumerated file.
Every `Except` is the result of one effectful call in the source;
`.error e` stands for that call raising an exception with message `e`. -/
structure FileEnv where
  path : String
  scanned_at : String
  statRes : Except String Nat
  sha1Read : Except String (List Nat)
  mimeRun : Except String Proc
  lfsHead : Except String String
  pvStat : Except String Nat
  pvRead : Except String (List Nat)
  mkdirRes : Except String Unit
  sqliteTables : Except String Proc
  sqliteExportRC : String → Int
  mbtilesMeta : Except String Proc
  mbtilesWrite : Except String Unit
  ogrRun : Except String Proc
  writeRes : Except String Unit

/-- String form of the per-source converted-output directory
`CONVERTED / p.name` (relative to the repository root). -/
def convOutdir (f : String) : String := "ai-previews/converted/" ++ pathName f

/-- Embedding of the extension dispatch in `main`: lowercase the path,
route on the suffix, creating the output directory first (the `mkdir`
call is not guarded, so its failure propagates as `.error`).  `.ok none`
is the initial empty dict `converted_info = \x7b\x7d`. -/
def dispatchConvert (fe : FileEnv) : Except String (Option ConvInfo) :=
  let lower := pyLower fe.path
  if pyEndsWith lower ".db" || pyEndsWith lower ".sqlite" then
    match fe.mkdirRes with
    | .error e => .error e
    | .ok _ => .ok (some (convert_sqlite (pathName fe.path) (convOutdir fe.path)
        fe.sqliteTables fe.sqliteExportRC))
  else if pyEndsWith lower ".mbtiles" then
    match fe.mkdirRes with
    | .error e => .error e
    | .ok _ => .ok (some (extract_mbtiles_metadata (pathName fe.path) (convOutdir fe.path)
        fe.mbtilesMeta fe.mbtilesWrite))
  else if pyEndsWith lower ".gpx" || pyEndsWith lower ".kml" then
    match fe.mkdirRes with
    | .error e => .error e
    | .ok _ => .ok (some (convert_gpx_kml (pathName fe.path) (convOutdir fe.path) fe.ogrRun))
  else .ok none

/-- Character-wise model of `str.replace('/', '__')`: a slash becomes two
underscores, everything else is kept. -/
def slashRepl (c : Char) : List Char :=
  if c = '/' then [Char.ofNat 95, Char.ofNat 95] else [c]

/-- Model of `write_preview`'s derived file name: the record path with
`/` replaced by `__`, plus `.json` (`Path.as_posix` is the identity on the
normalized relative POSIX paths the enumerator produces). -/
def write_preview_name (f : String) : String :=
  String.mk (f.toList.flatMap slashRepl) ++ ".json"

/-- The record literal built at the top of `main`'s loop body (before
`entry.update(pv)`). -/
def entryBase (fe : FileEnv) (stSize : Nat) (content : List Nat) : Entry :=
  { path := fe.path, size := stSize, sha1 := file_sha1 content,
    mime := mime_type fe.mimeRun, is_lfs_pointer := is_lfs_pointer fe.lfsHead,
    scanned_at := fe.scanned_at }

/-- Model of `if converted_info: entry['converted'] = converted_info`:
the key is set only when the dict is truthy (non-empty). -/
def withConv (e : Entry) : Option ConvInfo → Entry
  | some c => if c.keyCount ≠ 0 then { e with converted := some c } else e
  | none => e

/-- The body of `main`'s loop for one file, up to building the record
(result `.error e` = an uncaught exception escaping the iteration). -/
def buildEntry (cfg : Config) (fe : FileEnv) (stSize : Nat) (content : List Nat) :
    Except String Entry :=
  match dispatchConvert fe with
  | .error e => .error e
  | .ok conv =>
    .ok (truncateBig cfg (withConv
      (applyPreview (entryBase fe stSize content) (preview_text cfg fe.pvStat fe.pvRead)) conv))

/-- One iteration of `main`'s loop.  `.ok none` = the `stat` failed and the
file was skipped with `continue`; `.error e` = an exception escaped the
iteration (which aborts the whole run); `.ok (some ent)` = the record was
built and its per-file preview written. -/
def processFile (cfg : Config) (fe : FileEnv) : Except String (Option Entry) :=
  match fe.statRes with
  | .error _ => .ok none
  | .ok stSize =>
    match fe.sha1Read with
    | .error e => .error e
    | .ok content =>
      match buildEntry cfg fe stSize content with
      | .error e => .error e
      | .ok ent =>
        match fe.writeRes with
        | .error e => .error e
        | .ok _ => .ok (some ent)

/-- The three artifacts of a completed run: the per-file preview files
(derived name paired with the record), the aggregate JSON array, and the
NDJSON lines, each in processing order. -/
structure RunOutput where
  previews : List (String × Entry)
  metadata : List Entry
  ndjson : List Entry
deriving DecidableEq

/-- Embedding of `main` over the enumerated files: process each file in
order; an escaped exception aborts the run before the aggregate files are
written (`.error`). -/
def runMain (cfg : Config) : List FileEnv → Except String RunOutput
  | [] => .ok ⟨[], [], []⟩
  | fe :: rest =>
    match processFile cfg fe with
    | .error e => .error e
    | .ok none => runMain cfg rest
    | .ok (some ent) =>
      match runMain cfg rest with
      | .error e => .error e
      | .ok out =>
        .ok ⟨(write_preview_name fe.path, ent) :: out.previews,
             ent :: out.metadata, ent :: out.ndjson⟩

/-! ## Concrete fixtures (used by witnesses and counterexamples) -/

/-- A small UTF-8 text file `notes/readme.txt` with content `"hi\n"`,
every effectful call succeeding. -/
def feText : FileEnv :=
  { path := "notes/readme.txt"
    scanned_at := "2026-10-12T00:00:00Z"
    statRes := .ok 3
    sha1Read := .ok [104, 105, 10]
    mimeRun := .ok ⟨0, "text/plain\n", ""⟩
    lfsHead := .ok "hi\n"
    pvStat := .ok 3
    pvRead := .ok [104, 105, 10]
    mkdirRes := .ok ()
    sqliteTables := .ok ⟨0, "", ""⟩
    sqliteExportRC := fun _ => 0
    mbtilesMeta := .ok ⟨0, "", ""⟩
    mbtilesWrite := .ok ()
    ogrRun := .ok ⟨0, "", ""⟩
    writeRes := .ok () }

example : runMain defaultConfig [feText] =
    .ok ⟨[("notes__readme.txt.json",
          { path := "notes/readme.txt", size := 3,
            sha1 := "55ca6286e3e4f4fba5d0448333fa99fc5a404a73",
            mime := "text/plain", is_lfs_pointer := false,
            scanned_at := "2026-10-12T00:00:00Z",
            preview_text := some [[104, 105, 10]] })],
        [{ path := "notes/readme.txt", size := 3,
           sha1 := "55ca6286e3e4f4fba5d0448333fa99fc5a404a73",
           mime := "text/plain", is_lfs_pointer := false,
           scanned_at := "2026-10-12T00:00:00Z",
           preview_text := some [[104, 105, 10]] }],
        [{ path := "notes/readme.txt", size := 3,
           sha1 := "55ca6286e3e4f4fba5d0448333fa99fc5a404a73",
           mime := "text/plain", is_lfs_pointer := false,
           scanned_at := "2026-10-12T00:00:00Z",
           preview_text := some [[104, 105, 10]] }]⟩ := by decide

/-- An all-default entry, used only as a `getD` fallback in witnesses. -/
def dummyEntry : Entry :=
  { path := "", size := 0, sha1 := "", mime := "", is_lfs_pointer := false, scanned_at := "" }

/-! ## Preview-field bookkeeping lemmas -/

/-- How many of the three preview keys a `preview_text` result carries. -/
def pvFieldCount (pv : PreviewOut) : Nat :=
  (if pv.preview_text.isSome then 1 else 0) + (if pv.preview_hex.isSome then 1 else 0) +
    (if pv.preview_error.isSome then 1 else 0)

/-- How many of the three preview keys a record carries. -/
def previewFieldCount (e : Entry) : Nat :=
  (if e.preview_text.isSome then 1 else 0) + (if e.preview_hex.isSome then 1 else 0) +
    (if e.preview_error.isSome then 1 else 0)

theorem pvFieldCount_preview_text (cfg : Config) (s : Except String Nat)
    (r : Except String (List Nat)) : pvFieldCount (preview_text cfg s r) = 1 := by
  unfold preview_text
  cases s with
  | error e => simp [pvFieldCount]
  | ok size =>
    cases r with
    | error e => simp [pvFieldCount]
    | ok content =>
      dsimp only
      split <;> simp [pvFieldCount]

theorem previewFieldCount_applyPreview (e : Entry) (pv : PreviewOut)
    (h1 : e.preview_text = none) (h2 : e.preview_hex = none) (h3 : e.preview_error = none) :
    previewFieldCount (applyPreview e pv) = pvFieldCount pv := by
  unfold applyPreview previewFieldCount pvFieldCount
  cases hpt : pv.preview_text <;> cases hph : pv.preview_hex <;> cases hpe : pv.preview_error <;>
    simp [h1, h2, h3]

theorem previewFieldCount_truncateBig (cfg : Config) (e : Entry) :
    previewFieldCount (truncateBig cfg e) = previewFieldCount e := by
  unfold truncateBig
  split
  · unfold previewFieldCount
    cases hpt : e.preview_text <;> simp [hpt]
  · rfl

theorem previewFieldCount_withConv (e : Entry) (conv : Option ConvInfo) :
    previewFieldCount (withConv e conv) = previewFieldCount e := by
  cases conv with
  | none => rfl
  | some c =>
    unfold withConv
    split <;> first | rfl | (split <;> rfl)

/-- Inversion of a successful record build: the converter dispatch did not
raise, and the record is the truncated, converter-annotated update of the
base record by the preview dict. -/
theorem buildEntry_shape (cfg : Config) (fe : FileEnv) (stSize : Nat) (content : List Nat)
    (ent : Entry) (h : buildEntry cfg fe stSize content = .ok ent) :
    ∃ conv, dispatchConvert fe = .ok conv ∧
      ent = truncateBig cfg (withConv
        (applyPreview (entryBase fe stSize content)
          (preview_text cfg fe.pvStat fe.pvRead)) conv) := by
  cases hdc : dispatchConvert fe with
  | error e => simp [buildEntry, hdc] at h
  | ok conv =>
    simp only [buildEntry, hdc, Except.ok.injEq] at h
    exact ⟨conv, rfl, h.symm⟩

theorem buildEntry_fieldCount (cfg : Config) (fe : FileEnv) (stSize : Nat)
    (content : List Nat) (ent : Entry) (h : buildEntry cfg fe stSize content = .ok ent) :
    previewFieldCount ent = 1 := by
  obtain ⟨conv, hdc, hent⟩ := buildEntry_shape cfg fe stSize content ent h
  subst hent
  rw [previewFieldCount_truncateBig, previewFieldCount_withConv,
    previewFieldCount_applyPreview _ _ rfl rfl rfl, pvFieldCount_preview_text]

/-- Inversion of a successful per-file step: the `stat` and the hash read
succeeded, the record was built, and the preview write succeeded. -/
theorem processFile_inv (cfg : Config) (fe : FileEnv) (ent : Entry)
    (h : processFile cfg fe = .ok (some ent)) :
    ∃ stSize content, fe.statRes = .ok stSize ∧ fe.sha1Read = .ok content ∧
      buildEntry cfg fe stSize content = .ok ent ∧ fe.writeRes = .ok () := by
  cases hs : fe.statRes with
  | error e => simp [processFile, hs] at h
  | ok stSize =>
    cases hr : fe.sha1Read with
    | error e => simp [processFile, hs, hr] at h
    | ok content =>
      cases hb : buildEntry cfg fe stSize content with
      | error e => simp [processFile, hs, hr, hb] at h
      | ok ent2 =>
        cases hw : fe.writeRes with
        | error e => simp [processFile, hs, hr, hb, hw] at h
        | ok u =>
          simp only [processFile, hs, hr, hb, hw, Except.ok.injEq, Option.some.injEq] at h
          cases u
          refine ⟨stSize, content, rfl, rfl, ?_, rfl⟩
          rw [hb, h]

theorem processFile_fieldCount (cfg : Config) (fe : FileEnv) (ent : Entry)
    (h : processFile cfg fe = .ok (some ent)) : previewFieldCount ent = 1 := by
  obtain ⟨stSize, content, _, _, hb, _⟩ := processFile_inv cfg fe ent h
  exact buildEntry_fieldCount _ _ _ _ _ hb

/-- Every record in a completed run's aggregate array comes from some
enumerated file's successful processing step. -/
theorem runMain_mem_metadata (cfg : Config) :
    ∀ (files : List FileEnv) (out : RunOutput), runMain cfg files = .ok out →
      ∀ ent ∈ out.metadata, ∃ fe, fe ∈ files ∧ processFile cfg fe = .ok (some ent) := by
  intro files
  induction files with
  | nil =>
    intro out h ent he
    simp only [runMain, Except.ok.injEq] at h
    subst h
    simp at he
  | cons fe rest ih =>
    intro out h ent he
    simp only [runMain] at h
    cases hp : processFile cfg fe with
    | error e => rw [hp] at h; simp at h
    | ok o =>
      rw [hp] at h
      cases o with
      | none =>
        obtain ⟨fe2, hmem, hpf⟩ := ih out h ent he
        exact ⟨fe2, List.mem_cons_of_mem _ hmem, hpf⟩
      | some ent2 =>
        cases hr : runMain cfg rest with
        | error e => rw [hr] at h; simp at h
        | ok out2 =>
          rw [hr] at h
          simp only [Except.ok.injEq] at h
          subst h
          simp only [List.mem_cons] at he
          cases he with
          | inl heq => exact ⟨fe, List.mem_cons_self _ _, heq ▸ hp⟩
          | inr hmem =>
            obtain ⟨fe2, hmem2, hpf⟩ := ih out2 hr ent hmem
            exact ⟨fe2, List.mem_cons_of_mem _ hmem2, hpf⟩

/-! ## Claim C1 -/

/-- C1: for every file record produced by the pipeline, exactly one of the
fields `preview_text`, `preview_hex`, `preview_error` is present in the
record — never zero and never more than one. -/
theorem C1_preview_exactly_one (cfg : Config) (files : List FileEnv) (out : RunOutput)
    (h : runMain cfg files = .ok out) (ent : Entry) (he : ent ∈ out.metadata) :
    previewFieldCount ent = 1 := by
  obtain ⟨fe, _, hpf⟩ := runMain_mem_metadata cfg files out h ent he
  exact processFile_fieldCount cfg fe ent hpf

/-- The output of the one-text-file run, for witnesses. -/
def outText : RunOutput := (runMain defaultConfig [feText]).toOption.getD ⟨[], [], []⟩

/-- Witness for C1: the concrete text-file run satisfies the hypotheses
and the conclusion evaluates. -/
theorem C1_preview_exactly_one_witness :
    previewFieldCount (outText.metadata.getD 0 dummyEntry) = 1 :=
  C1_preview_exactly_one defaultConfig [feText] outText rfl _ (by decide)

/-! ## Claim C3 -/

/-- The records the loop produces, in processing order: one per enumerated
file whose per-file step succeeded with a record. -/
def processedRecords (cfg : Config) (files : List FileEnv) : List Entry :=
  files.filterMap fun fe =>
    match processFile cfg fe with
    | .ok (some ent) => some ent
    | _ => none

/-- C3: every record written to the per-file preview output also appears,
with the same fields and values, in the aggregate JSON array and in the
line-delimited JSON stream, and the order of lines in the line-delimited
stream equals the processing order of the files. -/
theorem C3_aggregates_match (cfg : Config) :
    ∀ (files : List FileEnv) (out : RunOutput), runMain cfg files = .ok out →
      out.previews.map Prod.snd = out.metadata ∧ out.ndjson = out.metadata ∧
        out.metadata = processedRecords cfg files := by
  intro files
  induction files with
  | nil =>
    intro out h
    simp only [runMain, Except.ok.injEq] at h
    subst h
    simp [processedRecords]
  | cons fe rest ih =>
    intro out h
    simp only [runMain] at h
    cases hp : processFile cfg fe with
    | error e => rw [hp] at h; simp at h
    | ok o =>
      rw [hp] at h
      cases o with
      | none =>
        obtain ⟨h1, h2, h3⟩ := ih out h
        exact ⟨h1, h2, by rw [h3]; simp [processedRecords, List.filterMap_cons, hp]⟩
      | some ent =>
        cases hr : runMain cfg rest with
        | error e => rw [hr] at h; simp at h
        | ok out2 =>
          rw [hr] at h
          simp only [Except.ok.injEq] at h
          subst h
          obtain ⟨h1, h2, h3⟩ := ih out2 hr
          refine ⟨by simpa using h1, by simpa using h2, ?_⟩
          simp only [processedRecords, List.filterMap_cons, hp]
          rw [← processedRecords, ← h3]

/-- Witness for C3: the concrete text-file run satisfies the hypothesis
and the conclusion evaluates. -/
theorem C3_aggregates_match_witness :
    outText.previews.map Prod.snd = outText.metadata ∧ outText.ndjson = outText.metadata ∧
      outText.metadata = processedRecords defaultConfig [feText] :=
  C3_aggregates_match defaultConfig [feText] outText rfl

/-! ## Projection lemmas for the record-building stages -/

theorem applyPreview_text_of_none (e : Entry) (pv : PreviewOut) (h : e.preview_text = none) :
    (applyPreview e pv).preview_text = pv.preview_text := by
  unfold applyPreview
  cases hp : pv.preview_text <;> simp [h, hp]

theorem applyPreview_hex_of_none (e : Entry) (pv : PreviewOut) (h : e.preview_hex = none) :
    (applyPreview e pv).preview_hex = pv.preview_hex := by
  unfold applyPreview
  cases hp : pv.preview_hex <;> simp [h, hp]

theorem applyPreview_error_of_none (e : Entry) (pv : PreviewOut) (h : e.preview_error = none) :
    (applyPreview e pv).preview_error = pv.preview_error := by
  unfold applyPreview
  cases hp : pv.preview_error <;> simp [h, hp]

theorem applyPreview_size_of_some (e : Entry) (pv : PreviewOut) (v : Nat)
    (h : pv.size = some v) : (applyPreview e pv).size = v := by
  unfold applyPreview
  simp [h]

theorem withConv_preview_text (e : Entry) (conv : Option ConvInfo) :
    (withConv e conv).preview_text = e.preview_text := by
  cases conv with
  | none => rfl
  | some c => unfold withConv; split <;> first | rfl | (split <;> rfl)

theorem withConv_preview_hex (e : Entry) (conv : Option ConvInfo) :
    (withConv e conv).preview_hex = e.preview_hex := by
  cases conv with
  | none => rfl
  | some c => unfold withConv; split <;> first | rfl | (split <;> rfl)

theorem withConv_preview_error (e : Entry) (conv : Option ConvInfo) :
    (withConv e conv).preview_error = e.preview_error := by
  cases conv with
  | none => rfl
  | some c => unfold withConv; split <;> first | rfl | (split <;> rfl)

theorem withConv_size (e : Entry) (conv : Option ConvInfo) :
    (withConv e conv).size = e.size := by
  cases conv with
  | none => rfl
  | some c => unfold withConv; split <;> first | rfl | (split <;> rfl)

theorem truncateBig_converted (cfg : Config) (e : Entry) :
    (truncateBig cfg e).converted = e.converted := by
  unfold truncateBig; split <;> rfl

theorem truncateBig_preview_hex (cfg : Config) (e : Entry) :
    (truncateBig cfg e).preview_hex = e.preview_hex := by
  unfold truncateBig; split <;> rfl

theorem truncateBig_preview_error (cfg : Config) (e : Entry) :
    (truncateBig cfg e).preview_error = e.preview_error := by
  unfold truncateBig; split <;> rfl

theorem truncateBig_size (cfg : Config) (e : Entry) :
    (truncateBig cfg e).size = e.size := by
  unfold truncateBig; split <;> rfl

theorem truncateBig_text_none (cfg : Config) (e : Entry) (h : e.preview_text = none) :
    (truncateBig cfg e).preview_text = none := by
  unfold truncateBig; split <;> simp [h]

/-! ## Claim C4 -/

/-- Does the lowercased path end in a registered converter extension
(grouped exactly as the three dispatch conditions are). -/
def registeredExt (f : String) : Bool :=
  (pyEndsWith (pyLower f) ".db" || pyEndsWith (pyLower f) ".sqlite") ||
    pyEndsWith (pyLower f) ".mbtiles" ||
    (pyEndsWith (pyLower f) ".gpx" || pyEndsWith (pyLower f) ".kml")

/-- Every dict a converter can return is non-empty, hence truthy. -/
theorem keyCount_pos (c : ConvInfo) : c.keyCount ≠ 0 := by
  cases c <;> simp [ConvInfo.keyCount]

theorem withConv_converted_isSome (e : Entry) (h : e.converted = none)
    (conv : Option ConvInfo) : (withConv e conv).converted.isSome = conv.isSome := by
  cases conv with
  | none => simp [withConv, h]
  | some c =>
    show (if c.keyCount ≠ 0 then { e with converted := some c } else e).converted.isSome = _
    rw [if_pos (keyCount_pos c)]

/-- A non-raising converter dispatch yields a dict exactly on the
registered extensions. -/
theorem dispatchConvert_isSome (fe : FileEnv) (conv : Option ConvInfo)
    (h : dispatchConvert fe = .ok conv) : conv.isSome = registeredExt fe.path := by
  unfold dispatchConvert at h
  dsimp only at h
  split_ifs at h with h1 h2 h3
  · cases hm : fe.mkdirRes with
    | error e => rw [hm] at h; simp at h
    | ok u =>
      rw [hm] at h
      simp only [Except.ok.injEq] at h
      subst h
      simp [registeredExt, h1]
  · cases hm : fe.mkdirRes with
    | error e => rw [hm] at h; simp at h
    | ok u =>
      rw [hm] at h
      simp only [Except.ok.injEq] at h
      subst h
      simp [registeredExt, h2]
  · cases hm : fe.mkdirRes with
    | error e => rw [hm] at h; simp at h
    | ok u =>
      rw [hm] at h
      simp only [Except.ok.injEq] at h
      subst h
      simp [registeredExt, h3]
  · simp only [Except.ok.injEq] at h
    subst h
    simp only [Bool.not_eq_true] at h1 h2 h3
    simp [registeredExt, h1, h2, h3]

/-- C4: for every processed file, the record contains a `converted` field
iff the file's lowercased name ends in one of the registered converter
extensions (.db, .sqlite, .mbtiles, .gpx, .kml); for any other extension
the `converted` field is absent. -/
theorem C4_converted_iff_registered (cfg : Config) (fe : FileEnv) (ent : Entry)
    (h : processFile cfg fe = .ok (some ent)) :
    ent.converted.isSome = registeredExt fe.path := by
  obtain ⟨stSize, content, _, _, hb, _⟩ := processFile_inv cfg fe ent h
  obtain ⟨conv, hdc, hent⟩ := buildEntry_shape cfg fe stSize content ent hb
  subst hent
  rw [truncateBig_converted, withConv_converted_isSome _ rfl,
    dispatchConvert_isSome fe conv hdc]

/-- A sqlite-backed track database (uppercase extension, to exercise the
lowercasing) whose conversion succeeds. -/
def feDb : FileEnv :=
  { feText with
    path := "data/tracks.DB"
    statRes := .ok 100
    sha1Read := .ok [83, 81]
    pvStat := .ok 100
    pvRead := .ok [83, 81, 0, 1]
    mimeRun := .ok ⟨0, "application/vnd.sqlite3\n", ""⟩
    sqliteTables := .ok ⟨0, " tracks  points \n", ""⟩ }

/-- The output of the one-database-file run, for witnesses. -/
def outDb : RunOutput := (runMain defaultConfig [feDb]).toOption.getD ⟨[], [], []⟩

/-- Witness for C4 at the concrete database-file run. -/
theorem C4_converted_iff_registered_witness :
    (outDb.metadata.getD 0 dummyEntry).converted.isSome = registeredExt feDb.path :=
  C4_converted_iff_registered defaultConfig feDb (outDb.metadata.getD 0 dummyEntry) rfl

/-! ## Claim C5 -/

/-- The initial 100-line cap: any stored text preview has at most 100
lines when it leaves `preview_text`. -/
theorem preview_text_lines_le100 (cfg : Config) (s : Except String Nat)
    (r : Except String (List Nat)) (lines : List (List Nat))
    (h : (preview_text cfg s r).preview_text = some lines) : lines.length ≤ 100 := by
  unfold preview_text at h
  cases s with
  | error e => simp at h
  | ok size =>
    cases r with
    | error e => simp at h
    | ok content =>
      dsimp only at h
      split at h
      · simp at h
      · simp only [Option.some.injEq] at h
        rw [← h]
        exact List.length_take_le _ _

/-- C5: for every record with a text preview, if the file's size exceeds
the large-file threshold (default 1 MiB) the stored `preview_text` has at
most 50 lines; if the size does not exceed the threshold it has at most
100 lines. -/
theorem C5_preview_line_bounds (cfg : Config) (fe : FileEnv) (ent : Entry)
    (h : processFile cfg fe = .ok (some ent)) (lines : List (List Nat))
    (hl : ent.preview_text = some lines) :
    (ent.size > cfg.BIG_FILE_THRESHOLD → lines.length ≤ 50) ∧
      (ent.size ≤ cfg.BIG_FILE_THRESHOLD → lines.length ≤ 100) := by
  obtain ⟨stSize, content, _, _, hb, _⟩ := processFile_inv cfg fe ent h
  obtain ⟨conv, hdc, hent⟩ := buildEntry_shape cfg fe stSize content ent hb
  set e2 := withConv (applyPreview (entryBase fe stSize content)
    (preview_text cfg fe.pvStat fe.pvRead)) conv with he2
  have htext : e2.preview_text = (preview_text cfg fe.pvStat fe.pvRead).preview_text := by
    rw [he2, withConv_preview_text, applyPreview_text_of_none _ _ rfl]
  by_cases hc : e2.size > cfg.BIG_FILE_THRESHOLD ∧ e2.preview_text.isSome
  · have hent2 : ent = { e2 with preview_text := e2.preview_text.map fun ls => ls.take 50 } := by
      rw [hent]; unfold truncateBig; rw [if_pos hc]
    rw [hent2] at hl
    have hlines : ∃ l0, e2.preview_text = some l0 ∧ lines = l0.take 50 := by
      cases hp : e2.preview_text with
      | none => rw [hp] at hl; simp at hl
      | some l0 =>
        rw [hp] at hl
        simp only [Option.map_some', Option.some.injEq] at hl
        exact ⟨l0, rfl, hl.symm⟩
    obtain ⟨l0, hl0, rfl⟩ := hlines
    constructor
    · intro _; exact List.length_take_le _ _
    · intro _; exact le_trans (List.length_take_le _ _) (by omega)
  · have hent2 : ent = e2 := by rw [hent]; unfold truncateBig; rw [if_neg hc]
    rw [hent2] at hl
    have h100 : lines.length ≤ 100 := preview_text_lines_le100 _ _ _ _ (htext ▸ hl)
    refine ⟨?_, fun _ => h100⟩
    intro hgt
    exfalso
    exact hc ⟨by rwa [hent2] at hgt, by rw [hl]; rfl⟩

/-- Witness for C5 at the concrete text-file run. -/
theorem C5_preview_line_bounds_witness :
    ((outText.metadata.getD 0 dummyEntry).size > defaultConfig.BIG_FILE_THRESHOLD →
      ([[104, 105, 10]] : List (List Nat)).length ≤ 50) ∧
      ((outText.metadata.getD 0 dummyEntry).size ≤ defaultConfig.BIG_FILE_THRESHOLD →
      ([[104, 105, 10]] : List (List Nat)).length ≤ 100) :=
  C5_preview_line_bounds defaultConfig feText (outText.metadata.getD 0 dummyEntry) rfl
    [[104, 105, 10]] (by decide)

/-! ## Claim C6 -/

theorem bytesToHex_length (bs : List Nat) : (bytesToHex bs).length = 2 * bs.length := by
  show (bs.flatMap fun b => [hexDigit (b / 16 % 16), hexDigit (b % 16)]).length = 2 * bs.length
  induction bs with
  | nil => rfl
  | cons b rest ih =>
    simp only [List.flatMap_cons, List.length_append, List.length_cons, List.length_nil, ih,
      List.length_cons]
    omega

/-- When the preview prefix contains a NUL byte, `preview_text` stores a
hex dump of the capped prefix and no text. -/
theorem preview_text_null_byte (cfg : Config) (n : Nat) (bytes : List Nat)
    (hnull : (bytes.take cfg.MAX_PREVIEW_BYTES).count 0 > 0) :
    preview_text cfg (.ok n) (.ok bytes) =
      { size := some n,
        preview_hex := some (bytesToHex
          ((bytes.take cfg.MAX_PREVIEW_BYTES).take cfg.PREVIEW_HEX_BYTES)) } := by
  unfold preview_text
  dsimp only
  rw [if_pos (by rw [decide_eq_true hnull, Bool.true_or])]

/-- C6: for every readable file whose preview prefix (default 4096 bytes)
contains a null byte, the record has `preview_hex` and no `preview_text`,
the hex string has at most 2 × the hex byte cap characters (default 512
bytes, so at most 1024 characters), and the bytes hex-encoded are a
prefix of the bytes actually read for the preview. -/
theorem C6_null_byte_hex (cfg : Config) (fe : FileEnv) (ent : Entry) (pvSize : Nat)
    (bytes : List Nat) (h : processFile cfg fe = .ok (some ent))
    (hstat : fe.pvStat = .ok pvSize) (hread : fe.pvRead = .ok bytes)
    (hnull : (bytes.take cfg.MAX_PREVIEW_BYTES).count 0 > 0) :
    ∃ hx, ent.preview_hex = some hx ∧ ent.preview_text = none ∧
      hx.length ≤ 2 * cfg.PREVIEW_HEX_BYTES ∧
      ∃ pre, pre <+: bytes.take cfg.MAX_PREVIEW_BYTES ∧ hx = bytesToHex pre := by
  obtain ⟨stSize, content, _, _, hb, _⟩ := processFile_inv cfg fe ent h
  obtain ⟨conv, hdc, hent⟩ := buildEntry_shape cfg fe stSize content ent hb
  have hpv : preview_text cfg fe.pvStat fe.pvRead =
      { size := some pvSize,
        preview_hex := some (bytesToHex
          ((bytes.take cfg.MAX_PREVIEW_BYTES).take cfg.PREVIEW_HEX_BYTES)) } := by
    rw [hstat, hread]
    exact preview_text_null_byte cfg pvSize bytes hnull
  refine ⟨bytesToHex ((bytes.take cfg.MAX_PREVIEW_BYTES).take cfg.PREVIEW_HEX_BYTES),
    ?_, ?_, ?_, ?_⟩
  · rw [hent, truncateBig_preview_hex, withConv_preview_hex,
      applyPreview_hex_of_none _ _ rfl, hpv]
  · rw [hent]
    apply truncateBig_text_none
    rw [withConv_preview_text, applyPreview_text_of_none _ _ rfl, hpv]
  · rw [bytesToHex_length]
    have := List.length_take_le cfg.PREVIEW_HEX_BYTES (bytes.take cfg.MAX_PREVIEW_BYTES)
    omega
  · exact ⟨_, ⟨(bytes.take cfg.MAX_PREVIEW_BYTES).drop cfg.PREVIEW_HEX_BYTES,
      List.take_append_drop _ _⟩, rfl⟩

/-- A small binary file whose first bytes contain a NUL byte. -/
def feNull : FileEnv :=
  { feText with
    path := "tiles/map.png"
    statRes := .ok 4
    sha1Read := .ok [137, 0, 78, 71]
    mimeRun := .ok ⟨0, "image/png\n", ""⟩
    pvStat := .ok 4
    pvRead := .ok [137, 0, 78, 71] }

/-- The output of the one-binary-file run, for witnesses. -/
def outNull : RunOutput := (runMain defaultConfig [feNull]).toOption.getD ⟨[], [], []⟩

/-- Witness for C6 at the concrete binary-file run. -/
theorem C6_null_byte_hex_witness :
    ∃ hx, (outNull.metadata.getD 0 dummyEntry).preview_hex = some hx ∧
      (outNull.metadata.getD 0 dummyEntry).preview_text = none ∧
      hx.length ≤ 2 * defaultConfig.PREVIEW_HEX_BYTES ∧
      ∃ pre, pre <+: ([137, 0, 78, 71] : List Nat).take defaultConfig.MAX_PREVIEW_BYTES ∧
        hx = bytesToHex pre :=
  C6_null_byte_hex defaultConfig feNull (outNull.metadata.getD 0 dummyEntry) 4
    [137, 0, 78, 71] rfl rfl rfl (by decide)

/-! ## Claim C10 -/

/-- An empty readable file is classified as text with an empty line list. -/
theorem preview_text_empty (cfg : Config) (n : Nat) :
    preview_text cfg (.ok n) (.ok []) = { size := some n, preview_text := some [] } := by
  unfold preview_text
  dsimp only
  rw [List.take_nil]
  rfl

/-- C10: for every readable zero-byte file, the record is classified as
text and contains `preview_text` equal to the empty list of lines (no
`preview_hex` and no `preview_error`), and this empty list is unchanged
by the large-file truncation step. -/
theorem C10_empty_file (cfg : Config) (fe : FileEnv) (ent : Entry)
    (h : processFile cfg fe = .ok (some ent)) (hstat : fe.pvStat = .ok 0)
    (hread : fe.pvRead = .ok []) :
    ent.preview_text = some [] ∧ ent.preview_hex = none ∧ ent.preview_error = none ∧
      truncateBig cfg ent = ent := by
  obtain ⟨stSize, content, _, _, hb, _⟩ := processFile_inv cfg fe ent h
  obtain ⟨conv, hdc, hent⟩ := buildEntry_shape cfg fe stSize content ent hb
  set e2 := withConv (applyPreview (entryBase fe stSize content)
    (preview_text cfg fe.pvStat fe.pvRead)) conv with he2
  have hpv : preview_text cfg fe.pvStat fe.pvRead =
      { size := some 0, preview_text := some [] } := by
    rw [hstat, hread]
    exact preview_text_empty cfg 0
  have h2text : e2.preview_text = some [] := by
    rw [he2, withConv_preview_text, applyPreview_text_of_none _ _ rfl, hpv]
  have hsize : ent.size = 0 := by
    rw [hent, truncateBig_size, he2, withConv_size,
      applyPreview_size_of_some _ _ 0 (by rw [hpv])]
  have htext : ent.preview_text = some [] := by
    rw [hent]
    unfold truncateBig
    split
    · simp [h2text]
    · exact h2text
  refine ⟨htext, ?_, ?_, ?_⟩
  · rw [hent, truncateBig_preview_hex, he2, withConv_preview_hex,
      applyPreview_hex_of_none _ _ rfl, hpv]
  · rw [hent, truncateBig_preview_error, he2, withConv_preview_error,
      applyPreview_error_of_none _ _ rfl, hpv]
  · unfold truncateBig
    rw [if_neg]
    intro hc
    exact Nat.not_lt_zero cfg.BIG_FILE_THRESHOLD (hsize ▸ hc.1)

/-- A zero-byte file, all reads succeeding. -/
def feEmpty : FileEnv :=
  { feText with
    path := "data/placeholder.txt"
    statRes := .ok 0
    sha1Read := .ok []
    pvStat := .ok 0
    pvRead := .ok [] }

/-- The output of the one-empty-file run, for witnesses. -/
def outEmpty : RunOutput := (runMain defaultConfig [feEmpty]).toOption.getD ⟨[], [], []⟩

/-- Witness for C10 at the concrete empty-file run. -/
theorem C10_empty_file_witness :
    (outEmpty.metadata.getD 0 dummyEntry).preview_text = some [] ∧
      (outEmpty.metadata.getD 0 dummyEntry).preview_hex = none ∧
      (outEmpty.metadata.getD 0 dummyEntry).preview_error = none ∧
      truncateBig defaultConfig (outEmpty.metadata.getD 0 dummyEntry) =
        outEmpty.metadata.getD 0 dummyEntry :=
  C10_empty_file defaultConfig feEmpty (outEmpty.metadata.getD 0 dummyEntry) rfl rfl rfl

/-! ## Claim C2 (corrected)

The claim says every per-file failure, including hashing and writing the
preview, is contained.  In the source only `p.stat()` is guarded
(`continue`) and `mime_type`, `is_lfs_pointer`, `preview_text` and the
converters catch their own exceptions; `file_sha1`, the converter
`outdir.mkdir` and `write_preview` are unguarded, so an exception there
escapes the loop and `main` dies before writing the aggregates. -/

/-- A file that stats fine but cannot be opened for hashing (for example
mode 000): `file_sha1` raises and nothing catches it. -/
def feShaFail : FileEnv :=
  { feText with
    path := "locked.bin"
    statRes := .ok 7
    sha1Read := .error "[Errno 13] Permission denied: 'locked.bin'" }

/-- C2 counterexample: a single file whose hash read fails aborts the
whole run before any aggregate output exists, contradicting the claim
that a failure while hashing is contained in the file's record. -/
theorem C2_cex_sha_failure_aborts :
    runMain defaultConfig [feShaFail] =
      .error "[Errno 13] Permission denied: 'locked.bin'" := by decide

/-- The per-file effectful calls that are NOT guarded in the source: the
open/read for hashing, the preview write, and (for registered extensions)
the converter output mkdir. -/
def perFileUnguardedOk (fe : FileEnv) : Prop :=
  (∃ c, fe.sha1Read = .ok c) ∧ fe.writeRes = .ok () ∧
    (registeredExt fe.path = true → fe.mkdirRes = .ok ())

/-- A dispatch whose mkdir cannot fail on registered extensions never
raises. -/
theorem dispatchConvert_ok (fe : FileEnv)
    (hmk : registeredExt fe.path = true → fe.mkdirRes = .ok ()) :
    ∃ conv, dispatchConvert fe = .ok conv := by
  unfold dispatchConvert
  dsimp only
  split_ifs with h1 h2 h3
  · rw [hmk (by simp [registeredExt, h1])]
    exact ⟨_, rfl⟩
  · rw [hmk (by simp [registeredExt, h2])]
    exact ⟨_, rfl⟩
  · rw [hmk (by simp [registeredExt, h3])]
    exact ⟨_, rfl⟩
  · exact ⟨none, rfl⟩

/-- Per-file processing never raises when the unguarded calls succeed
(whatever the stat, MIME, pointer-check, preview and converter tool
outcomes are). -/
theorem processFile_ok (cfg : Config) (fe : FileEnv) (h : perFileUnguardedOk fe) :
    ∃ o, processFile cfg fe = .ok o := by
  obtain ⟨⟨content, hsha⟩, hw, hmk⟩ := h
  cases hs : fe.statRes with
  | error e => exact ⟨none, by simp [processFile, hs]⟩
  | ok stSize =>
    obtain ⟨conv, hdc⟩ := dispatchConvert_ok fe hmk
    refine ⟨some (truncateBig cfg (withConv
      (applyPreview (entryBase fe stSize content)
        (preview_text cfg fe.pvStat fe.pvRead)) conv)), ?_⟩
    simp [processFile, hs, hsha, buildEntry, hdc, hw]

/-- C2 amended: a stat failure skips the file, and failures inside MIME
classification, pointer detection, previewing and the converter tools are
contained in the record; but if every file's hash read and preview write
succeed (and the converter-output mkdir succeeds for registered
extensions), no exception escapes and the run completes with its
aggregate outputs. -/
theorem C2_amended_run_completes (cfg : Config) :
    ∀ files : List FileEnv, (∀ fe ∈ files, perFileUnguardedOk fe) →
      ∃ out, runMain cfg files = .ok out := by
  intro files
  induction files with
  | nil => exact fun _ => ⟨⟨[], [], []⟩, rfl⟩
  | cons fe rest ih =>
    intro hall
    obtain ⟨out2, hout2⟩ := ih fun g hg => hall g (List.mem_cons_of_mem _ hg)
    obtain ⟨o, ho⟩ := processFile_ok cfg fe (hall fe (List.mem_cons_self _ _))
    cases o with
    | none => exact ⟨out2, by simp [runMain, ho, hout2]⟩
    | some ent =>
      exact ⟨⟨(write_preview_name fe.path, ent) :: out2.previews,
        ent :: out2.metadata, ent :: out2.ndjson⟩, by simp [runMain, ho, hout2]⟩

/-- A file on which every guarded call fails (MIME probe, pointer read,
preview stat and read) but the unguarded calls succeed. -/
def feMessy : FileEnv :=
  { path := "cache/blob.dat"
    scanned_at := "2026-10-12T00:00:01Z"
    statRes := .ok 5
    sha1Read := .ok [1, 2, 3, 4, 5]
    mimeRun := .error "OSError: cannot spawn"
    lfsHead := .error "OSError: unreadable"
    pvStat := .error "FileNotFoundError"
    pvRead := .error "FileNotFoundError"
    mkdirRes := .error "PermissionError: mkdir"
    sqliteTables := .error "never reached"
    sqliteExportRC := fun _ => 1
    mbtilesMeta := .error "never reached"
    mbtilesWrite := .error "never reached"
    ogrRun := .error "never reached"
    writeRes := .ok () }

/-- Witness for the amended C2: the run over a file whose guarded calls
all fail still completes. -/
theorem C2_amended_run_completes_witness :
    ∃ out, runMain defaultConfig [feMessy] = .ok out :=
  C2_amended_run_completes defaultConfig [feMessy] (by
    intro fe hfe
    simp only [List.mem_singleton] at hfe
    subst hfe
    exact ⟨⟨[1, 2, 3, 4, 5], rfl⟩, rfl, fun hreg => absurd hreg (by decide)⟩)

/-! ## Claim C8 (corrected)

The streamed digest is deterministic and independent of the chunk
boundaries — `file_sha1` equals hashing the whole content in one update —
but the spec's "byte order does not affect digest" is false: SHA-1 is a
function of the ordered byte sequence, and permuting bytes changes it. -/

/-- C8 counterexample: two byte-identical-up-to-order contents (the
permutations [97, 98] and [98, 97]) have different digests, so byte order
does affect the digest. -/
theorem C8_cex_byte_order_matters :
    ([97, 98] : List Nat).Perm [98, 97] ∧ file_sha1 [97, 98] ≠ file_sha1 [98, 97] :=
  ⟨by decide, by decide⟩

theorem processBlocksF_succ (f : Nat) (st : H5) (l : List Nat) :
    processBlocksF (f + 1) st l =
      if 64 ≤ l.length then processBlocksF f (compress st (l.take 64)) (l.drop 64)
      else (st, l) := by
  cases l with
  | nil => simp [processBlocksF]
  | cons b rest => rfl

/-- The fuel in `processBlocksF` is irrelevant once it covers the input
length. -/
theorem processBlocksF_fuel : ∀ (f : Nat) (st : H5) (l : List Nat), l.length ≤ f →
    processBlocksF f st l = processBlocksF l.length st l := by
  intro f
  induction f using Nat.strong_induction_on with
  | _ f ih =>
    intro st l h
    cases f with
    | zero =>
      have : l = [] := List.length_eq_zero.mp (Nat.le_zero.mp h)
      subst this
      rfl
    | succ f =>
      by_cases h64 : 64 ≤ l.length
      · obtain ⟨m, hm⟩ : ∃ m, l.length = m + 1 := ⟨l.length - 1, by omega⟩
        rw [processBlocksF_succ, if_pos h64, hm, processBlocksF_succ, if_pos (by omega)]
        have hd : (l.drop 64).length = l.length - 64 := List.length_drop 64 l
        rw [ih f (Nat.lt_succ_self f) _ _ (by omega),
          ih m (by omega) _ _ (by omega)]
      · rw [processBlocksF_succ, if_neg h64]
        cases hk : l.length with
        | zero => rfl
        | succ k => rw [processBlocksF_succ, if_neg (by omega)]

/-- One-step unfolding of `processBlocks`. -/
theorem processBlocks_eq (st : H5) (l : List Nat) :
    processBlocks st l =
      if 64 ≤ l.length then processBlocks (compress st (l.take 64)) (l.drop 64)
      else (st, l) := by
  unfold processBlocks
  by_cases h64 : 64 ≤ l.length
  · obtain ⟨m, hm⟩ : ∃ m, l.length = m + 1 := ⟨l.length - 1, by omega⟩
    rw [if_pos h64, hm, processBlocksF_succ, if_pos (by omega)]
    have hd : (l.drop 64).length = l.length - 64 := List.length_drop 64 l
    rw [processBlocksF_fuel m _ _ (by omega)]
  · rw [if_neg h64]
    cases hk : l.length with
    | zero =>
      have : l = [] := List.length_eq_zero.mp (by omega)
      subst this
      rfl
    | succ k => rw [processBlocksF_succ, if_neg (by omega)]

/-- Processing a concatenation equals processing the first part, then the
remainder joined with the second part. -/
theorem processBlocks_append_aux : ∀ (n : Nat) (st : H5) (x y : List Nat), x.length ≤ n →
    processBlocks st (x ++ y) =
      processBlocks (processBlocks st x).1 ((processBlocks st x).2 ++ y) := by
  intro n
  induction n with
  | zero =>
    intro st x y h
    have : x = [] := List.length_eq_zero.mp (Nat.le_zero.mp h)
    subst this
    rw [processBlocks_eq st [], if_neg (by simp)]
  | succ n ih =>
    intro st x y h
    by_cases h64 : 64 ≤ x.length
    · rw [processBlocks_eq st (x ++ y), if_pos (by rw [List.length_append]; omega),
        List.take_append_of_le_length (by omega), List.drop_append_of_le_length (by omega),
        processBlocks_eq st x, if_pos h64]
      exact ih (compress st (x.take 64)) (x.drop 64) y (by rw [List.length_drop]; omega)
    · rw [processBlocks_eq st x, if_neg h64]

theorem processBlocks_append (st : H5) (x y : List Nat) :
    processBlocks st (x ++ y) =
      processBlocks (processBlocks st x).1 ((processBlocks st x).2 ++ y) :=
  processBlocks_append_aux x.length st x y le_rfl

/-- Absorbing two byte strings one after the other equals absorbing their
concatenation: the `hashlib` streaming law. -/
theorem sha1update_append (ctx : Sha1Ctx) (a b : List Nat) :
    sha1update (sha1update ctx a) b = sha1update ctx (a ++ b) := by
  unfold sha1update
  dsimp only
  rw [← List.append_assoc, processBlocks_append ctx.h (ctx.buf ++ a) b]
  simp [List.length_append, Nat.add_assoc]

/-- Folding the updates over a non-empty chunk list equals one update
with the flattened bytes. -/
theorem foldl_sha1update_flatten : ∀ (cs : List (List Nat)) (c : List Nat) (ctx : Sha1Ctx),
    List.foldl sha1update ctx (c :: cs) = sha1update ctx (c :: cs).flatten := by
  intro cs
  induction cs with
  | nil =>
    intro c ctx
    simp [List.flatten]
  | cons c2 cs ih =>
    intro c ctx
    rw [List.foldl_cons, ih c2 (sha1update ctx c), sha1update_append]
    simp [List.flatten_cons]

/-- Re-joining the 8192-byte chunks gives back the content. -/
theorem readChunksF_flatten : ∀ (fuel : Nat) (l : List Nat), l.length ≤ fuel →
    (readChunksF fuel l).flatten = l := by
  intro fuel
  induction fuel with
  | zero =>
    intro l h
    have : l = [] := List.length_eq_zero.mp (Nat.le_zero.mp h)
    subst this
    rfl
  | succ f ih =>
    intro l h
    cases l with
    | nil => rfl
    | cons b rest =>
      show ((b :: rest).take 8192 :: readChunksF f ((b :: rest).drop 8192)).flatten = b :: rest
      rw [List.flatten_cons, ih _ (by rw [List.length_drop]; simp at h ⊢; omega)]
      exact List.take_append_drop _ _

/-- C8 amended: the content hash is a deterministic function of the
ordered byte content — the chunked streaming digest equals the digest of
the full byte sequence hashed at once (so chunk boundaries do not matter
and byte-identical contents agree) — but byte order does affect the
digest. -/
theorem C8_amended_chunking (content : List Nat) : file_sha1 content = sha1_once content := by
  unfold file_sha1 sha1_once
  have hjoin : (readChunks content).flatten = content := readChunksF_flatten _ _ le_rfl
  cases hchunks : readChunks content with
  | nil =>
    rw [hchunks] at hjoin
    rw [← hjoin]
    rfl
  | cons c cs =>
    rw [foldl_sha1update_flatten cs c sha1init]
    rw [hchunks] at hjoin
    rw [hjoin]

/-! ## Claim C9 (corrected)

Replacing `/` by `__` is not injective: a path that already contains a
double underscore collides with the path that has a slash there instead. -/

/-- C9 counterexample: the distinct source paths `a/b` and `a__b` derive
the same preview file name, so one record can overwrite the other's
preview file. -/
theorem C9_cex_name_collision :
    write_preview_name "a/b" = write_preview_name "a__b" ∧ ("a/b" : String) ≠ "a__b" :=
  ⟨by decide, by decide⟩

theorem slashRepl_slash : slashRepl '/' = [Char.ofNat 95, Char.ofNat 95] := rfl

theorem slashRepl_other (c : Char) (hc : c ≠ '/') : slashRepl c = [c] := by
  unfold slashRepl
  rw [if_neg hc]

/-- On underscore-free character lists, the slash replacement is
injective. -/
theorem flatMap_slashRepl_inj : ∀ (l1 l2 : List Char),
    (∀ c ∈ l1, c ≠ Char.ofNat 95) → (∀ c ∈ l2, c ≠ Char.ofNat 95) →
    l1.flatMap slashRepl = l2.flatMap slashRepl → l1 = l2 := by
  intro l1
  induction l1 with
  | nil =>
    intro l2 h1 h2 h
    cases l2 with
    | nil => rfl
    | cons c t =>
      exfalso
      rw [List.flatMap_nil, List.flatMap_cons] at h
      unfold slashRepl at h
      split at h <;> simp at h
  | cons c1 t1 ih =>
    intro l2 h1 h2 h
    cases l2 with
    | nil =>
      exfalso
      rw [List.flatMap_cons, List.flatMap_nil] at h
      unfold slashRepl at h
      split at h <;> simp at h
    | cons c2 t2 =>
      rw [List.flatMap_cons, List.flatMap_cons] at h
      have ht1 : ∀ c ∈ t1, c ≠ Char.ofNat 95 := fun c hc => h1 c (List.mem_cons_of_mem _ hc)
      have ht2 : ∀ c ∈ t2, c ≠ Char.ofNat 95 := fun c hc => h2 c (List.mem_cons_of_mem _ hc)
      by_cases hc1 : c1 = '/'
      · by_cases hc2 : c2 = '/'
        · subst hc1
          subst hc2
          rw [slashRepl_slash] at h
          simp only [List.cons_append, List.nil_append, List.cons.injEq, true_and] at h
          rw [ih t2 ht1 ht2 h]
        · exfalso
          subst hc1
          rw [slashRepl_slash, slashRepl_other c2 hc2] at h
          simp only [List.cons_append, List.nil_append, List.cons.injEq] at h
          exact h2 c2 (List.mem_cons_self _ _) h.1.symm
      · by_cases hc2 : c2 = '/'
        · exfalso
          subst hc2
          rw [slashRepl_slash, slashRepl_other c1 hc1] at h
          simp only [List.cons_append, List.nil_append, List.cons.injEq] at h
          exact h1 c1 (List.mem_cons_self _ _) h.1
        · rw [slashRepl_other c1 hc1, slashRepl_other c2 hc2] at h
          simp only [List.cons_append, List.nil_append, List.cons.injEq] at h
          rw [h.1, ih t2 ht1 ht2 h.2]

/-- C9 amended: the preview-file naming function is injective over source
paths containing no underscore character; in general two distinct paths
can collide (see the counterexample `a/b` vs `a__b`). -/
theorem C9_amended_name_inj (p1 p2 : String)
    (h1 : ∀ c ∈ p1.toList, c ≠ Char.ofNat 95) (h2 : ∀ c ∈ p2.toList, c ≠ Char.ofNat 95)
    (h : write_preview_name p1 = write_preview_name p2) : p1 = p2 := by
  unfold write_preview_name at h
  have hdata := congrArg String.data h
  rw [String.data_append, String.data_append] at hdata
  have hflat : p1.toList.flatMap slashRepl = p2.toList.flatMap slashRepl :=
    List.append_cancel_right hdata
  have hlist : p1.toList = p2.toList := flatMap_slashRepl_inj _ _ h1 h2 hflat
  cases p1
  cases p2
  exact congrArg String.mk (by simpa using hlist)

/-- Witness for the amended C9 at a concrete underscore-free path. -/
theorem C9_amended_name_inj_witness : ("gps/track.gpx" : String) = "gps/track.gpx" :=
  C9_amended_name_inj "gps/track.gpx" "gps/track.gpx" (by decide) (by decide) rfl

/-! ## Claim C7 (corrected)

The fallback walk excludes every root that merely string-starts with
`./.git` or `./ai-previews`, which also drops sibling directories such as
`./.github` — more than the spec's "exactly the version-control metadata
directory and the tool's own output directory". -/

/-- C7 counterexample: with the version-control query failing, a tree
whose only content is `.github/ci.yml` yields an empty enumeration from
the code, while the spec's exact-exclusion walk (which excludes only
`.git` and `ai-previews`) yields that file — `.github` is neither of the
excluded directories. -/
theorem C7_cex_github_excluded :
    git_tracked_files gitFailProc ghTree = [] ∧
      specExactExclusionWalk ghTree = [".github/ci.yml"] ∧
      (".github" : String) ≠ ".git" ∧ (".github" : String) ≠ "ai-previews" :=
  ⟨by decide, by decide, by decide, by decide⟩

/-- Boolean prefix test agrees with the prefix relation (char lists). -/
theorem isPrefixOf_iff (l1 l2 : List Char) : l1.isPrefixOf l2 = true ↔ l1 <+: l2 := by
  induction l1 generalizing l2 with
  | nil => exact ⟨fun _ => ⟨l2, rfl⟩, fun _ => by cases l2 <;> rfl⟩
  | cons c t ih =>
    cases l2 with
    | nil =>
      constructor
      · intro h
        exact absurd h (by simp [List.isPrefixOf])
      · rintro ⟨s, hs⟩
        simp at hs
    | cons c2 t2 =>
      show (c == c2 && t.isPrefixOf t2) = true ↔ _
      rw [Bool.and_eq_true, beq_iff_eq, ih, List.cons_prefix_cons]

/-- A prefix of a concatenation is a prefix of the first part, or extends
it. -/
theorem isPre_append_cases (p a b : List Char) (h : p <+: a ++ b) : p <+: a ∨ a <+: p := by
  induction a generalizing p with
  | nil => exact Or.inr ⟨p, rfl⟩
  | cons x a2 ih =>
    cases p with
    | nil => exact Or.inl ⟨x :: a2, rfl⟩
    | cons y p2 =>
      rw [List.cons_append, List.cons_prefix_cons] at h
      obtain ⟨rfl, h2⟩ := h
      rcases ih p2 h2 with h3 | h3
      · exact Or.inl (List.cons_prefix_cons.mpr ⟨rfl, h3⟩)
      · exact Or.inr (List.cons_prefix_cons.mpr ⟨rfl, h3⟩)

/-- Characters of a joined path: the base, a slash, the name. -/
theorem base_slash_toList (base n : String) :
    (base ++ "/" ++ n).toList = base.toList ++ '/' :: n.toList := by
  show ((base ++ "/") ++ n).data = base.data ++ '/' :: n.data
  rw [String.data_append, String.data_append, List.append_assoc]
  rfl

mutual

/-- Every root yielded by the walk of `d` from `base` is `base` itself or
`base` extended after a slash. -/
theorem walkFrom_root_ext : ∀ (base : String) (d : Dir) (rf : String × List String),
    rf ∈ walkFrom base d → ∃ t : List Char, rf.1.toList = base.toList ++ t ∧
      (t = [] ∨ ∃ t2, t = '/' :: t2)
  | base, .mk fs subs, rf, h => by
    rw [show walkFrom base (.mk fs subs) = (base, fs) :: walkSubs base subs from rfl] at h
    rcases List.mem_cons.mp h with heq | hmem
    · exact ⟨[], by rw [heq, List.append_nil], Or.inl rfl⟩
    · obtain ⟨t2, ht⟩ := walkSubs_root_ext base subs rf hmem
      exact ⟨'/' :: t2, ht, Or.inr ⟨t2, rfl⟩⟩

/-- Every root yielded by walking the subdirectories of `base` extends
`base` after a slash. -/
theorem walkSubs_root_ext : ∀ (base : String) (ds : DirList) (rf : String × List String),
    rf ∈ walkSubs base ds → ∃ t2 : List Char, rf.1.toList = base.toList ++ '/' :: t2
  | base, .nil, rf, h => by simp [walkSubs] at h
  | base, .cons n d rest, rf, h => by
    rw [show walkSubs base (.cons n d rest) =
      walkFrom (base ++ "/" ++ n) d ++ walkSubs base rest from rfl] at h
    rcases List.mem_append.mp h with hmem | hmem
    · obtain ⟨t, ht, _⟩ := walkFrom_root_ext (base ++ "/" ++ n) d rf hmem
      refine ⟨n.toList ++ t, ?_⟩
      rw [ht, base_slash_toList, List.append_assoc]
      rfl
    · exact walkSubs_root_ext base rest rf hmem

end

/-- A helper congruence: `flatMap` respects pointwise-equal functions. -/
theorem flatMapCongr {α β : Type} (l : List α) (f g : α → List β)
    (h : ∀ x ∈ l, f x = g x) : l.flatMap f = l.flatMap g := by
  induction l with
  | nil => rfl
  | cons a t ih =>
    rw [List.flatMap_cons, List.flatMap_cons, h a (List.mem_cons_self a t),
      ih fun x hx => h x (List.mem_cons_of_mem _ hx)]

/-- Top-level directory names that do not prefix-collide with the two
excluded names (other than being exactly one of them). -/
def topNameOk (n : String) : Prop :=
  (n = ".git" ∨ (".git".toList.isPrefixOf n.toList = false ∧
    n.toList.isPrefixOf ".git".toList = false)) ∧
  (n = "ai-previews" ∨ ("ai-previews".toList.isPrefixOf n.toList = false ∧
    n.toList.isPrefixOf "ai-previews".toList = false))

/-- All top-level subdirectory names are `topNameOk`. -/
def dirListNamesOk : DirList → Prop
  | .nil => True
  | .cons n _ rest => topNameOk n ∧ dirListNamesOk rest

/-- Core of the exclusion mismatch: when the excluded name `g` and the
directory name `n` do not prefix-relate, `./g` is not a string prefix of
any root inside the subtree of `n`. -/
theorem excl_not_pre (g n t : List Char)
    (hnp1 : g.isPrefixOf n = false) (hnp2 : n.isPrefixOf g = false) :
    ('.' :: '/' :: g).isPrefixOf ('.' :: '/' :: (n ++ t)) = false := by
  rw [← Bool.not_eq_true]
  intro hcontra
  rw [isPrefixOf_iff] at hcontra
  have h2 := (List.cons_prefix_cons.mp ((List.cons_prefix_cons.mp hcontra).2)).2
  rcases isPre_append_cases g n t h2 with hc | hc
  · have hb := (isPrefixOf_iff g n).mpr hc
    rw [hnp1] at hb
    simp at hb
  · have hb := (isPrefixOf_iff n g).mpr hc
    rw [hnp2] at hb
    simp at hb

/-- The code's fallback contributes nothing from a top-level `.git` or
`ai-previews` subtree. -/
theorem codeKeep_excluded_subtree (d : Dir) (n : String)
    (hn : n = ".git" ∨ n = "ai-previews") :
    (walkFrom ("." ++ "/" ++ n) d).flatMap codeKeep = [] := by
  rw [List.flatMap_eq_nil_iff]
  intro rf hmem
  obtain ⟨t, ht, _⟩ := walkFrom_root_ext _ _ rf hmem
  have hcond : (pyStartsWith rf.1 "./.git" || pyStartsWith rf.1 "./ai-previews") = true := by
    rcases hn with rfl | rfl
    · have hg : pyStartsWith rf.1 "./.git" = true := by
        unfold pyStartsWith
        rw [isPrefixOf_iff, ht, base_slash_toList]
        exact ⟨t, rfl⟩
      rw [hg, Bool.true_or]
    · have hg : pyStartsWith rf.1 "./ai-previews" = true := by
        unfold pyStartsWith
        rw [isPrefixOf_iff, ht, base_slash_toList]
        exact ⟨t, rfl⟩
      rw [hg, Bool.or_true]
  unfold codeKeep
  rw [if_pos hcond]

/-- The code's fallback keeps a whole clean top-level subtree, agreeing
with the plain emission. -/
theorem codeKeep_clean_subtree (d : Dir) (n : String) (hok : topNameOk n)
    (h1 : n ≠ ".git") (h2 : n ≠ "ai-previews") :
    (walkFrom ("." ++ "/" ++ n) d).flatMap codeKeep =
      (walkFrom ("." ++ "/" ++ n) d).flatMap walkEmit := by
  apply flatMapCongr
  intro rf hmem
  obtain ⟨t, ht, _⟩ := walkFrom_root_ext _ _ rf hmem
  obtain ⟨hg1, hg2⟩ := hok
  rcases hg1 with heq | ⟨hnp1, hnp2⟩
  · exact absurd heq h1
  rcases hg2 with heq | ⟨hmp1, hmp2⟩
  · exact absurd heq h2
  have hroot : rf.1.toList = '.' :: '/' :: (n.toList ++ t) := by
    rw [ht, base_slash_toList]
    rfl
  have hgit : pyStartsWith rf.1 "./.git" = false := by
    unfold pyStartsWith
    rw [hroot]
    exact excl_not_pre ".git".toList n.toList t hnp1 hnp2
  have hai : pyStartsWith rf.1 "./ai-previews" = false := by
    unfold pyStartsWith
    rw [hroot]
    exact excl_not_pre "ai-previews".toList n.toList t hmp1 hmp2
  unfold codeKeep
  rw [hgit, hai]
  simp

/-- The code's fallback over the subdirectories equals the spec's plain
emission over the exact-exclusion-filtered subdirectories. -/
theorem walkSubs_code_eq_spec : ∀ subs : DirList, dirListNamesOk subs →
    (walkSubs "." subs).flatMap codeKeep =
      (walkSubs "." (dirListFilterTop subs)).flatMap walkEmit
  | .nil, _ => rfl
  | .cons n d rest, hnames => by
    obtain ⟨hok, hrest⟩ := hnames
    rw [show walkSubs "." (.cons n d rest) =
      walkFrom ("." ++ "/" ++ n) d ++ walkSubs "." rest from rfl, List.flatMap_append]
    by_cases hn : n = ".git" ∨ n = "ai-previews"
    · rw [show dirListFilterTop (.cons n d rest) = dirListFilterTop rest from by
        simp only [dirListFilterTop]; rw [if_pos hn]]
      rw [codeKeep_excluded_subtree d n hn, walkSubs_code_eq_spec rest hrest,
        List.nil_append]
    · rw [show dirListFilterTop (.cons n d rest) = .cons n d (dirListFilterTop rest) from by
        simp only [dirListFilterTop]; rw [if_neg hn]]
      rw [show walkSubs "." (.cons n d (dirListFilterTop rest)) =
        walkFrom ("." ++ "/" ++ n) d ++ walkSubs "." (dirListFilterTop rest) from rfl,
        List.flatMap_append]
      push_neg at hn
      rw [codeKeep_clean_subtree d n hok hn.1 hn.2, walkSubs_code_eq_spec rest hrest]

/-- C7 amended: the enumerator never raises; it returns the parsed
tracked list when the query succeeds with non-empty output, and otherwise
falls back to the walk, excluding every root whose path string-starts
with `./.git` or `./ai-previews` (which can exclude more than those two
directories, e.g. `./.github`).  When no top-level name prefix-collides
with the two excluded names, the fallback coincides with the spec's
exact-exclusion walk; on an empty tree it returns the empty sequence. -/
theorem C7_amended_fallback_walk (gitLs : Proc) (fs : List String) (subs : DirList)
    (hgit : ¬(gitLs.returncode = 0 ∧ gitLs.stdout ≠ ""))
    (hnames : dirListNamesOk subs) :
    git_tracked_files gitLs (.mk fs subs) = specExactExclusionWalk (.mk fs subs) := by
  rw [show specExactExclusionWalk (.mk fs subs) =
    (walkFrom "." (Dir.mk fs (dirListFilterTop subs))).flatMap walkEmit from rfl]
  unfold git_tracked_files
  rw [if_neg hgit]
  rw [show walkFrom "." (Dir.mk fs subs) = (".", fs) :: walkSubs "." subs from rfl,
    show walkFrom "." (Dir.mk fs (dirListFilterTop subs)) =
      (".", fs) :: walkSubs "." (dirListFilterTop subs) from rfl,
    List.flatMap_cons, List.flatMap_cons]
  have hroot : codeKeep (".", fs) = walkEmit (".", fs) := by
    unfold codeKeep
    rw [if_neg]
    show ¬(pyStartsWith "." "./.git" || pyStartsWith "." "./ai-previews") = true
    decide
  rw [hroot, walkSubs_code_eq_spec subs hnames]

/-- A repository-like tree: a README, the `.git` metadata directory, and
a data directory. -/
def repoSubs : DirList :=
  .cons ".git" (.mk ["HEAD"] .nil) (.cons "data" (.mk ["run.gpx"] .nil) .nil)

/-- Witness for the amended C7: on the repository-like tree with a failing
version-control query, both walks agree. -/
theorem C7_amended_fallback_walk_witness :
    git_tracked_files gitFailProc (.mk ["README.md"] repoSubs) =
      specExactExclusionWalk (.mk ["README.md"] repoSubs) :=
  C7_amended_fallback_walk gitFailProc ["README.md"] repoSubs (by decide)
    ⟨by unfold topNameOk; decide, by unfold topNameOk; decide, trivial⟩

end GPSPreviews
